import Mathlib

/-!
Shallow embedding of `src/advanced-vector/vector.h`: the `RawMemory<T>` /
`Vector<T>` dynamic array.

Modelling conventions:
* A storage slot is `Option α`: `none` is raw (unconstructed) memory, `some a`
  is a live object holding value `a`.  A `RawMemory<T>` block of capacity `c`
  is a list of `c` slots; `Vector<T>` is such a buffer plus `size_`.
* The element type `T` is modelled by `ElemModel`: the two compile-time traits
  the code branches on (`std::is_nothrow_move_constructible_v<T>`,
  `std::is_copy_constructible_v<T>`) plus a fallible copy constructor
  (`copy : α → Except ε α`, the source is never modified) and a fallible move
  constructor (`move : α → Except ε (α × α)`, returning the constructed value
  and the residue left in the moved-from source).  Assignment operators are
  modelled as value replacement.
* Operations return `OpResult`: `ok` with the new state, or `fail` (a thrown
  exception) with the state the vector is left in.  Each result carries a
  trace of element-level constructor/destructor/assignment calls the code
  performs, so that claims about "which element operations run" are statable.
* `std::uninitialized_move_n` / `std::uninitialized_copy_n` are modelled by
  their specified net effect (`relocMove` / `relocCopy`): element-wise
  construction; on an exception the already-constructed targets are destroyed
  and the exception propagates (for moves, already-processed sources keep
  their moved-from residue).  Likewise `std::move` / `std::move_backward`
  are modelled by their net slot effect (`moveShiftLeft` / `moveShiftRight`).
-/

namespace AdvVector

/-- One storage slot: `none` = raw memory, `some a` = live object. -/
abbrev Slot (α : Type) := Option α

/-- The raw buffer of a `RawMemory<T>` block: one entry per slot;
`capacity_` is the length. -/
abbrev Buf (α : Type) := List (Slot α)

/-- `Vector<T>` (vector.h lines 99-263): an owned raw buffer `data_` plus the
live-element count `size_`.  `Capacity()` is the buffer length. -/
structure Vec (α : Type) where
  buffer : Buf α
  size : Nat
deriving DecidableEq

/-- `Vector<T>::Capacity()` = `data_.Capacity()` (the block's slot count). -/
def Vec.capacity (v : Vec α) : Nat := v.buffer.length

/-- The live range `[0, size)` of the vector, as slots. -/
def Vec.liveSlots (v : Vec α) : Buf α := v.buffer.take v.size

/-- The documented invariant (spec §3): `size <= capacity`, slots `[0, size)`
hold live objects, slots `[size, capacity)` are raw. -/
def Vec.WF (v : Vec α) : Prop :=
  v.size ≤ v.buffer.length
    ∧ (v.buffer.take v.size).all (fun s => s.isSome) = true
    ∧ (v.buffer.drop v.size).all (fun s => s.isNone) = true

instance (v : Vec α) : Decidable v.WF := by
  unfold Vec.WF; infer_instance

/-- An element-level operation performed by the container, for traces.
`dtor i` records a destructor call on slot `i` of the block the code is
operating on. -/
inductive ElemOp where
  | ctorNew : ElemOp
  | moveCtor : ElemOp
  | copyCtor : ElemOp
  | assign : ElemOp
  | dtor (i : Nat) : ElemOp
deriving DecidableEq

/-- The caller-supplied element type `T`: its two relocation-relevant traits
and its fallible copy / move constructors (spec §6). -/
structure ElemModel (α ε : Type) where
  nothrowMove : Bool
  copyConstructible : Bool
  copy : α → Except ε α
  move : α → Except ε (α × α)

/-- The relocation-policy condition the code tests in `Reserve`, `PushBack`,
`EmplaceBack` and `Emplace`:
`std::is_nothrow_move_constructible_v<T> || !std::is_copy_constructible_v<T>`
(vector.h lines 171, 299, 457, 500). -/
def relocByMove (em : ElemModel α ε) : Bool :=
  em.nothrowMove || !em.copyConstructible

/-- Whether an `Except` result is a success. -/
def exOk : Except ε β → Bool
  | Except.ok _ => true
  | Except.error _ => false

/-- Copy-construct from one slot (`CopyConstruct`, line 422): the source slot
is not modified.  Copying from a raw slot is UB in C++; modelled as a no-op
producing a raw slot. -/
def copySlot (em : ElemModel α ε) : Slot α → Except ε (Slot α)
  | none => Except.ok none
  | some a =>
    match em.copy a with
    | Except.error e => Except.error e
    | Except.ok t => Except.ok (some t)

/-- Move-construct from one slot: returns (constructed target slot, residue
left in the source slot).  Moving from a raw slot is UB in C++; modelled as a
no-op. -/
def moveSlot (em : ElemModel α ε) : Slot α → Except ε (Slot α × Slot α)
  | none => Except.ok (none, none)
  | some a =>
    match em.move a with
    | Except.error e => Except.error e
    | Except.ok (t, r) => Except.ok (some t, some r)

/-- `std::uninitialized_copy_n` over the given source slots: element-wise copy
construction into fresh storage.  On an exception the targets already
constructed are destroyed and the exception propagates; the sources are
untouched.  Returns the constructed targets (or the error) plus the trace of
copy-constructor calls made. -/
def relocCopy (em : ElemModel α ε) :
    (src : List (Slot α)) → Except ε (List (Slot α)) × List ElemOp
  | [] => (Except.ok [], [])
  | s :: ss =>
    match copySlot em s with
    | Except.error e => (Except.error e, [ElemOp.copyCtor])
    | Except.ok t =>
      match relocCopy em ss with
      | (Except.ok ts, tr) => (Except.ok (t :: ts), ElemOp.copyCtor :: tr)
      | (Except.error e, tr) => (Except.error e, ElemOp.copyCtor :: tr)

/-- `std::uninitialized_move_n` over the given source slots.  On success
returns (targets, the moved-from residues now in the sources).  On an
exception the constructed targets are destroyed and the exception propagates;
already-processed sources are left holding their residue (`error` carries the
resulting source slots). -/
def relocMove (em : ElemModel α ε) :
    (src : List (Slot α)) →
      Except (ε × List (Slot α)) (List (Slot α) × List (Slot α)) × List ElemOp
  | [] => (Except.ok ([], []), [])
  | s :: ss =>
    match moveSlot em s with
    | Except.error e => (Except.error (e, s :: ss), [ElemOp.moveCtor])
    | Except.ok (t, r) =>
      match relocMove em ss with
      | (Except.ok (ts, rs), tr) =>
          (Except.ok (t :: ts, r :: rs), ElemOp.moveCtor :: tr)
      | (Except.error (e, ss1), tr) =>
          (Except.error (e, r :: ss1), ElemOp.moveCtor :: tr)

/-- Net slot effect of `std::move(buf+(pos+1), buf+size, buf+pos)` (the
left shift in `Erase` and in the `Emplace` recovery branch): slots
`[pos, size-1)` receive the old values of slots `[pos+1, size)`; every other
slot is unchanged.  An empty or invalid range moves nothing. -/
def moveShiftLeft (buf : Buf α) (pos size : Nat) : Buf α :=
  (List.range buf.length).map fun i =>
    if pos ≤ i ∧ i + 1 < size then buf.getD (i + 1) none else buf.getD i none

/-- Net slot effect of `std::move_backward(buf+pos, buf+(size-1), buf+size)`
(the right shift in the non-growth `Emplace` path): slots `[pos+1, size)`
receive the old values of slots `[pos, size-1)`; every other slot is
unchanged.  An empty or invalid range moves nothing. -/
def moveShiftRight (buf : Buf α) (pos size : Nat) : Buf α :=
  (List.range buf.length).map fun i =>
    if pos + 1 ≤ i ∧ i < size then buf.getD (i - 1) none else buf.getD i none

/-- Slot indices read by the recovery branch of the non-growth `Emplace` path
(vector.h lines 207-221): the reconstruction source `data_[size_ + pos_t + 1]`
and the shift sources `[pos_t + 2, size_)` of
`std::move(data_ + pos_t + 2, data_ + size_, data_ + pos_t + 1)`. -/
def emplaceRecoverReads (size pos : Nat) : List Nat :=
  (size + pos + 1) :: List.range' (pos + 2) (size - (pos + 2))

/-- The catch block of the non-growth `Emplace` path (vector.h lines 207-221):
`Destroy(data_ + pos_t)`, reconstruct slot `pos_t` from
`data_[size_ + pos_t + 1]`, shift `[pos_t+2, size_)` down to `pos_t+1`,
rethrow.  Out-of-range reads (which this formula performs) yield a raw slot.
Returns the resulting buffer and the slot indices read. -/
def emplaceRecover (buf : Buf α) (size pos : Nat) : Buf α × List Nat :=
  let b1 := buf.set pos (buf.getD (size + pos + 1) none)
  (moveShiftLeft b1 (pos + 1) size, emplaceRecoverReads size pos)

/-- Write the same slot value into slots `[start, start + count)`; every other
slot unchanged (used for `std::destroy_n` with `none` and for
`std::uninitialized_value_construct_n` with a constructed value). -/
def setRange (buf : Buf α) (start count : Nat) (x : Slot α) : Buf α :=
  (List.range buf.length).map fun i =>
    if start ≤ i ∧ i < start + count then x else buf.getD i none

/-- Element-wise assignment of `src`'s first `n` slot values over `dst`
(the assignment loops of copy-assignment, lines 324-326 and 333-335). -/
def assignRange (dst src : Buf α) (n : Nat) : Buf α :=
  (List.range dst.length).map fun i =>
    if i < n then src.getD i none else dst.getD i none

/-- Write the list `xs` into slots `[start, start + xs.length)`; every other
slot unchanged. -/
def writeAt (buf : Buf α) (start : Nat) (xs : List (Slot α)) : Buf α :=
  (List.range buf.length).map fun i =>
    if start ≤ i ∧ i < start + xs.length then xs.getD (i - start) none
    else buf.getD i none

/-- Result of a vector operation: success or a propagated exception, the
state the vector is left in, and the trace of element-level operations. -/
inductive OpResult (α ε : Type) where
  | ok (v : Vec α) (tr : List ElemOp)
  | fail (e : ε) (v : Vec α) (tr : List ElemOp)
deriving DecidableEq

/-- `Vector<T>::Reserve` (vector.h lines 292-309).  No-op if
`new_capacity <= Capacity()`.  Otherwise allocates a new block, relocates the
live elements by move or copy per `relocByMove`, swaps the blocks and destroys
the old block's elements.  A relocation failure propagates: the new block is
discarded; with copy relocation the vector is untouched, with move relocation
already-processed sources keep their moved-from residue. -/
def Vec.reserve (em : ElemModel α ε) (newCap : Nat) (v : Vec α) : OpResult α ε :=
  if newCap ≤ v.capacity then OpResult.ok v []
  else
    if relocByMove em then
      match relocMove em v.liveSlots with
      | (Except.ok (ts, _), tr) =>
          OpResult.ok ⟨ts ++ List.replicate (newCap - v.size) none, v.size⟩
            (tr ++ (List.range v.size).map ElemOp.dtor)
      | (Except.error (e, rs), tr) =>
          OpResult.fail e ⟨rs ++ v.buffer.drop v.size, v.size⟩ tr
    else
      match relocCopy em v.liveSlots with
      | (Except.ok ts, tr) =>
          OpResult.ok ⟨ts ++ List.replicate (newCap - v.size) none, v.size⟩
            (tr ++ (List.range v.size).map ElemOp.dtor)
      | (Except.error e, tr) => OpResult.fail e v tr

/-- `Vector<T>::PushBack` (vector.h lines 440-481).  `mkVal` is the
construction of the new `T` from the forwarded argument.  Growth path
(`size_ == Capacity()`): allocate `size_ == 0 ? 1 : size_ * 2` slots,
construct the new element into slot `size_` of the new block first (on
failure the catch runs `Destroy(new_data + size_)` on that slot and
rethrows), then relocate the old elements per `relocByMove`, swap blocks and
destroy the old elements.  Non-growth path: construct directly into slot
`size_`; on failure the catch runs `Destroy(data_ + size_)` and rethrows. -/
def Vec.pushBack (em : ElemModel α ε) (mkVal : Except ε α) (v : Vec α) :
    OpResult α ε :=
  if v.size = v.capacity then
    let newCap := if v.size = 0 then 1 else v.size * 2
    match mkVal with
    | Except.error e => OpResult.fail e v [ElemOp.ctorNew, ElemOp.dtor v.size]
    | Except.ok x =>
      if relocByMove em then
        match relocMove em v.liveSlots with
        | (Except.ok (ts, _), tr) =>
            OpResult.ok
              ⟨ts ++ some x :: List.replicate (newCap - v.size - 1) none,
                v.size + 1⟩
              (ElemOp.ctorNew :: (tr ++ (List.range v.size).map ElemOp.dtor))
        | (Except.error (e, rs), tr) =>
            OpResult.fail e ⟨rs ++ v.buffer.drop v.size, v.size⟩
              (ElemOp.ctorNew :: tr)
      else
        match relocCopy em v.liveSlots with
        | (Except.ok ts, tr) =>
            OpResult.ok
              ⟨ts ++ some x :: List.replicate (newCap - v.size - 1) none,
                v.size + 1⟩
              (ElemOp.ctorNew :: (tr ++ (List.range v.size).map ElemOp.dtor))
        | (Except.error e, tr) =>
            OpResult.fail e v (ElemOp.ctorNew :: tr)
  else
    match mkVal with
    | Except.error e => OpResult.fail e v [ElemOp.ctorNew, ElemOp.dtor v.size]
    | Except.ok x =>
        OpResult.ok ⟨v.buffer.set v.size (some x), v.size + 1⟩ [ElemOp.ctorNew]

/-- `Vector<T>::EmplaceBack` (vector.h lines 483-525): its body performs the
same steps as `PushBack` with the new element constructed from the forwarded
argument pack (it additionally returns a reference to the new element, which
has no state effect), so it is the same state transformer. -/
def Vec.emplaceBack (em : ElemModel α ε) (mkVal : Except ε α) (v : Vec α) :
    OpResult α ε :=
  Vec.pushBack em mkVal v

/-- `Vector<T>::Emplace` (vector.h lines 156-225); `Insert` (lines 227-231)
forwards to it.  `mkVal` is the construction of a `T` from the argument pack
(the growth path's direct construction, the non-growth scratch value `temp`,
or the empty-vector direct construction — in each case one `T` constructor
call on the same arguments).

Growth path: construct the new element into slot `pos_t` of the new block
first (on failure the catch runs `Destroy(new_data + pos_t)` and rethrows),
then relocate `[0, pos_t)` and `[pos_t, size_)` around it per `relocByMove`,
swap and destroy the old elements.

Non-growth, non-empty path: build `temp`, move-construct the last element
into slot `size_` (`ForwardConstruct(data_ + size_,
std::forward<T>(data_[size_ - 1]))` — a move regardless of the relocation
policy), `std::move_backward` the range `[pos_t, size_ - 1)` one slot right,
move-assign `temp` into slot `pos_t`.  Any failure in this `try` block runs
the recovery formula `emplaceRecover` and rethrows (the recovery's own
constructor/assignment calls are not traced).

Non-growth, empty path: construct directly into slot `pos_t`. -/
def Vec.emplace (em : ElemModel α ε) (mkVal : Except ε α) (pos : Nat)
    (v : Vec α) : OpResult α ε :=
  if v.size = v.capacity then
    let newCap := if v.size = 0 then 1 else v.size * 2
    match mkVal with
    | Except.error e => OpResult.fail e v [ElemOp.ctorNew, ElemOp.dtor pos]
    | Except.ok x =>
      let pre := v.buffer.take pos
      let suf := v.liveSlots.drop pos
      if relocByMove em then
        match relocMove em pre with
        | (Except.error (e, rs), tr) =>
            OpResult.fail e ⟨rs ++ v.buffer.drop pos, v.size⟩
              (ElemOp.ctorNew :: tr)
        | (Except.ok (ts1, rs1), tr1) =>
          match relocMove em suf with
          | (Except.error (e, rs2), tr2) =>
              OpResult.fail e ⟨rs1 ++ rs2 ++ v.buffer.drop v.size, v.size⟩
                (ElemOp.ctorNew :: (tr1 ++ tr2))
          | (Except.ok (ts2, _), tr2) =>
              OpResult.ok
                ⟨ts1 ++ some x :: ts2 ++
                    List.replicate (newCap - v.size - 1) none, v.size + 1⟩
                (ElemOp.ctorNew ::
                  (tr1 ++ tr2 ++ (List.range v.size).map ElemOp.dtor))
      else
        match relocCopy em pre with
        | (Except.error e, tr) =>
            OpResult.fail e v (ElemOp.ctorNew :: tr)
        | (Except.ok ts1, tr1) =>
          match relocCopy em suf with
          | (Except.error e, tr2) =>
              OpResult.fail e v (ElemOp.ctorNew :: (tr1 ++ tr2))
          | (Except.ok ts2, tr2) =>
              OpResult.ok
                ⟨ts1 ++ some x :: ts2 ++
                    List.replicate (newCap - v.size - 1) none, v.size + 1⟩
                (ElemOp.ctorNew ::
                  (tr1 ++ tr2 ++ (List.range v.size).map ElemOp.dtor))
  else
    if v.size = 0 then
      match mkVal with
      | Except.error e =>
          OpResult.fail e ⟨(emplaceRecover v.buffer v.size pos).1, v.size⟩
            [ElemOp.ctorNew, ElemOp.dtor pos]
      | Except.ok x =>
          OpResult.ok ⟨v.buffer.set pos (some x), v.size + 1⟩ [ElemOp.ctorNew]
    else
      match mkVal with
      | Except.error e =>
          OpResult.fail e ⟨(emplaceRecover v.buffer v.size pos).1, v.size⟩
            [ElemOp.ctorNew, ElemOp.dtor pos]
      | Except.ok temp =>
        match moveSlot em (v.buffer.getD (v.size - 1) none) with
        | Except.error e =>
            OpResult.fail e ⟨(emplaceRecover v.buffer v.size pos).1, v.size⟩
              [ElemOp.ctorNew, ElemOp.moveCtor, ElemOp.dtor pos]
        | Except.ok (t, r) =>
          let b1 := (v.buffer.set v.size t).set (v.size - 1) r
          let b2 := moveShiftRight b1 pos v.size
          let b3 := b2.set pos (some temp)
          OpResult.ok ⟨b3, v.size + 1⟩
            (ElemOp.ctorNew :: ElemOp.moveCtor ::
              (((List.range (v.size - 1 - pos)).map fun _ => ElemOp.assign) ++
                [ElemOp.assign]))

/-- `Vector<T>::Erase` (vector.h lines 235-243): shift-move `(pos, end)` one
slot left, destroy the vacated last slot, decrement `size_`. -/
def Vec.erase (pos : Nat) (v : Vec α) : Vec α × List ElemOp :=
  (⟨(moveShiftLeft v.buffer pos v.size).set (v.size - 1) none, v.size - 1⟩,
    ((List.range (v.size - 1 - pos)).map fun _ => ElemOp.assign) ++
      [ElemOp.dtor (v.size - 1)])

/-- `Vector<T>::Resize` (vector.h lines 381-399).  If `new_size <= size_`:
destroy slots `[new_size, size_)` and set the size.  Otherwise: compute
`count_new_elem = new_size - size_`, `Reserve(new_size)` when
`Capacity() < new_size`, then value-construct `count_new_elem` elements
starting at slot `Capacity() - count_new_elem` (capacity read after the
conditional reserve) and set the size.  `mkDefault` is the element's default
(value) construction; on its failure the already-constructed new elements are
destroyed and the exception propagates with the size unchanged. -/
def Vec.resize (em : ElemModel α ε) (mkDefault : Except ε α) (newSize : Nat)
    (v : Vec α) : OpResult α ε :=
  if newSize ≤ v.size then
    OpResult.ok ⟨setRange v.buffer newSize (v.size - newSize) none, newSize⟩
      ((List.range' newSize (v.size - newSize)).map ElemOp.dtor)
  else
    let step := if v.capacity < newSize then Vec.reserve em newSize v
      else OpResult.ok v []
    match step with
    | OpResult.fail e w tr => OpResult.fail e w tr
    | OpResult.ok w tr =>
      match mkDefault with
      | Except.error e => OpResult.fail e w (tr ++ [ElemOp.ctorNew])
      | Except.ok d =>
        let count := newSize - v.size
        OpResult.ok
          ⟨setRange w.buffer (w.capacity - count) count (some d), newSize⟩
          (tr ++ (List.range count).map fun _ => ElemOp.ctorNew)

/-- `Vector<T>::operator=(Vector&&)` (vector.h lines 345-350): `Swap(rhs)`.
Returns (the new `*this`, the new `rhs`) and the element-operation trace
(empty: a swap does no element-level work and cannot fail). -/
def Vec.moveAssign (dst src : Vec α) : (Vec α × Vec α) × List ElemOp :=
  ((src, dst), [])

/-- `Vector<T>::Vector(Vector&&)` (vector.h lines 375-379): the new object is
default-constructed (empty) and then swapped with `other`.  Returns (the new
object, the new state of `other`) and the (empty) element-operation trace. -/
def Vec.moveConstruct (src : Vec α) : (Vec α × Vec α) × List ElemOp :=
  ((src, ⟨[], 0⟩), [])

/-- `Vector<T>::operator=(const Vector&)` (vector.h lines 311-343).
`isSelf` models the identity test `this != &rhs`: a self-assignment call is
`isSelf = true` with `dst = src`, and does nothing.  Otherwise:
if `rhs.size_ > Capacity()`, build a full copy and swap it in (the copy has
capacity exactly `rhs.size_`; the old elements are then destroyed with the
temporary); if `rhs.size_ < size_`, assign the prefix and destroy the surplus
tail; otherwise assign over `[0, size_)` and copy-construct the additional
trailing elements.  Assignments are modelled as value replacement. -/
def Vec.copyAssign (em : ElemModel α ε) (isSelf : Bool) (dst src : Vec α) :
    OpResult α ε :=
  if isSelf then OpResult.ok dst []
  else if dst.capacity < src.size then
    match relocCopy em src.liveSlots with
    | (Except.error e, tr) => OpResult.fail e dst tr
    | (Except.ok ts, tr) =>
        OpResult.ok ⟨ts, src.size⟩
          (tr ++ (List.range dst.size).map ElemOp.dtor)
  else if src.size < dst.size then
    OpResult.ok
      ⟨setRange (assignRange dst.buffer src.buffer src.size) src.size
          (dst.size - src.size) none, src.size⟩
      (((List.range src.size).map fun _ => ElemOp.assign) ++
        (List.range' src.size (dst.size - src.size)).map ElemOp.dtor)
  else
    let b1 := assignRange dst.buffer src.buffer dst.size
    match relocCopy em (src.liveSlots.drop dst.size) with
    | (Except.error e, tr) =>
        OpResult.fail e ⟨b1, dst.size⟩
          (((List.range dst.size).map fun _ => ElemOp.assign) ++ tr)
    | (Except.ok ts, tr) =>
        OpResult.ok ⟨writeAt b1 dst.size ts, src.size⟩
          (((List.range dst.size).map fun _ => ElemOp.assign) ++ tr)

/-- A `Nat` element type whose copy and move always succeed and whose move
leaves the source unchanged (a trivially relocatable, nothrow-movable type). -/
def emOkNat : ElemModel Nat Unit :=
  ⟨true, true, fun a => Except.ok a, fun a => Except.ok (a, a)⟩

/-- A `Nat` element type that is copyable with a potentially-failing move
constructor (here the operations in fact always succeed): per the relocation
policy it must be relocated by copy. -/
def emCopyNat : ElemModel Nat Unit :=
  ⟨false, true, fun a => Except.ok a, fun a => Except.ok (a, a)⟩

/-- A `Nat` element type with a real move: moving succeeds and leaves the
moved-from source holding `0`. -/
def emMoveZero : ElemModel Nat Unit :=
  ⟨true, true, fun a => Except.ok a, fun a => Except.ok (a, 0)⟩

/-- A move-only `Nat` element type whose move constructor fails on the value
`2` (a throwing-move, non-copyable type: the relocation policy must use
move). -/
def emMoveOnlyThrowing : ElemModel Nat Unit :=
  ⟨false, false, fun _ => Except.error (),
    fun a => if a = 2 then Except.error () else Except.ok (a, 0)⟩

/-- Repeated append: `n` successful `PushBack`s of the trivially relocatable
element type starting from the empty vector. -/
def appendN : Nat → Vec Nat
  | 0 => ⟨[], 0⟩
  | n + 1 =>
    match Vec.pushBack emOkNat (Except.ok n) (appendN n) with
    | OpResult.ok w _ => w
    | OpResult.fail _ w _ => w

/-- Whether a traced element operation is a relocation transfer (a move or
copy construction of an existing element). -/
def isRelocEvent : ElemOp → Bool
  | ElemOp.moveCtor => true
  | ElemOp.copyCtor => true
  | _ => false

/-- The relocation transfers in a trace. -/
def relocEvents (tr : List ElemOp) : List ElemOp := tr.filter isRelocEvent

/-- On success, the relocation transfers in the trace are exactly `n`
occurrences of `k`; a failing call is not constrained. -/
def relocTraceIs (k : ElemOp) (n : Nat) : OpResult α ε → Prop
  | OpResult.ok _ tr => relocEvents tr = List.replicate n k
  | OpResult.fail _ _ _ => True

/-- The strong guarantee relative to the pre-call state `v`: if the operation
fails, the vector is left exactly in state `v`. -/
def strongGuarantee (v : Vec α) : OpResult α ε → Prop
  | OpResult.ok _ _ => True
  | OpResult.fail _ w _ => w = v

/-- The state after `Insert(pos, x)` immediately followed by `Erase(pos)`
(`none` if the insertion failed). -/
def afterInsertErase (em : ElemModel α ε) (x : α) (pos : Nat) (v : Vec α) :
    Option (Vec α) :=
  match Vec.emplace em (Except.ok x) pos v with
  | OpResult.ok w _ => some (Vec.erase pos w).1
  | OpResult.fail _ _ _ => none

/-! ### Pointwise access toolkit -/

theorem getD_rangeMap (f : Nat → Slot α) (n i : Nat) (h : i < n) :
    ((List.range n).map f).getD i none = f i := by
  rw [List.getD_eq_getElem _ _ (by simpa using h)]
  simp

theorem getD_rangeMap_ge (f : Nat → Slot α) (n i : Nat) (h : n ≤ i) :
    ((List.range n).map f).getD i none = none :=
  List.getD_eq_default _ _ (by simpa using h)

theorem getD_set_ne (l : Buf α) (x : Slot α) {i j : Nat} (h : i ≠ j) :
    (l.set i x).getD j none = l.getD j none := by
  simp [List.getD_eq_getElem?_getD, List.getElem?_set_ne h]

theorem getD_set_self (l : Buf α) (x : Slot α) {i : Nat} (h : i < l.length) :
    (l.set i x).getD i none = x := by
  simp [List.getD_eq_getElem?_getD, List.getElem?_set_self, h]

theorem getD_append_lt (l m : Buf α) {i : Nat} (h : i < l.length) :
    (l ++ m).getD i none = l.getD i none := by
  simp [List.getD_eq_getElem?_getD, List.getElem?_append, h]

theorem getD_append_ge (l m : Buf α) {i : Nat} (h : l.length ≤ i) :
    (l ++ m).getD i none = m.getD (i - l.length) none := by
  simp [List.getD_eq_getElem?_getD, List.getElem?_append, Nat.not_lt.mpr h]

theorem getD_take_lt (l : Buf α) {n i : Nat} (h : i < n) :
    (l.take n).getD i none = l.getD i none := by
  simp [List.getD_eq_getElem?_getD, List.getElem?_take, h]

theorem getD_drop (l : Buf α) (n i : Nat) :
    (l.drop n).getD i none = l.getD (n + i) none := by
  simp [List.getD_eq_getElem?_getD, List.getElem?_drop]

theorem getD_cons_succ (s : Slot α) (l : Buf α) (i : Nat) :
    (s :: l).getD (i + 1) none = l.getD i none := rfl

theorem buf_ext (l m : Buf α) (hl : l.length = m.length)
    (h : ∀ i, i < l.length → l.getD i none = m.getD i none) : l = m := by
  apply List.ext_getElem hl
  intro i h1 h2
  have h3 := h i h1
  rwa [List.getD_eq_getElem _ _ h1, List.getD_eq_getElem _ _ h2] at h3

theorem length_moveShiftLeft (buf : Buf α) (pos size : Nat) :
    (moveShiftLeft buf pos size).length = buf.length := by
  simp [moveShiftLeft]

theorem getD_moveShiftLeft (buf : Buf α) (pos size i : Nat)
    (h : i < buf.length) :
    (moveShiftLeft buf pos size).getD i none =
      if pos ≤ i ∧ i + 1 < size then buf.getD (i + 1) none
      else buf.getD i none := by
  unfold moveShiftLeft
  rw [getD_rangeMap _ _ _ h]

theorem length_moveShiftRight (buf : Buf α) (pos size : Nat) :
    (moveShiftRight buf pos size).length = buf.length := by
  simp [moveShiftRight]

theorem getD_moveShiftRight (buf : Buf α) (pos size i : Nat)
    (h : i < buf.length) :
    (moveShiftRight buf pos size).getD i none =
      if pos + 1 ≤ i ∧ i < size then buf.getD (i - 1) none
      else buf.getD i none := by
  unfold moveShiftRight
  rw [getD_rangeMap _ _ _ h]

theorem length_setRange (buf : Buf α) (start count : Nat) (x : Slot α) :
    (setRange buf start count x).length = buf.length := by
  simp [setRange]

theorem getD_setRange (buf : Buf α) (start count i : Nat) (x : Slot α)
    (h : i < buf.length) :
    (setRange buf start count x).getD i none =
      if start ≤ i ∧ i < start + count then x else buf.getD i none := by
  unfold setRange
  rw [getD_rangeMap _ _ _ h]

/-! ### Relocation lemmas -/

theorem relocCopy_ok (em : ElemModel α ε) :
    ∀ (l ts : List (Slot α)) (tr : List ElemOp),
      relocCopy em l = (Except.ok ts, tr) →
      ts.length = l.length ∧ tr = List.replicate l.length ElemOp.copyCtor := by
  intro l
  induction l with
  | nil =>
    intro ts tr h
    simp only [relocCopy, Prod.mk.injEq] at h
    obtain ⟨h1, h2⟩ := h
    cases h1
    subst h2
    simp
  | cons s ss ih =>
    intro ts tr h
    simp only [relocCopy] at h
    cases hc : copySlot em s with
    | error e => rw [hc] at h; simp at h
    | ok t =>
      rw [hc] at h
      cases hr : relocCopy em ss with
      | mk res tr1 =>
        cases res with
        | ok ts1 =>
          rw [hr] at h
          simp only [Prod.mk.injEq] at h
          obtain ⟨h1, h2⟩ := h
          cases h1
          subst h2
          have := ih ts1 tr1 hr
          simp [this.1, this.2, List.replicate_succ]
        | error e1 =>
          rw [hr] at h
          simp at h

theorem relocMove_ok (em : ElemModel α ε) :
    ∀ (l ts rs : List (Slot α)) (tr : List ElemOp),
      relocMove em l = (Except.ok (ts, rs), tr) →
      ts.length = l.length ∧ tr = List.replicate l.length ElemOp.moveCtor := by
  intro l
  induction l with
  | nil =>
    intro ts rs tr h
    simp only [relocMove, Prod.mk.injEq] at h
    obtain ⟨h1, h2⟩ := h
    cases h1
    subst h2
    simp
  | cons s ss ih =>
    intro ts rs tr h
    simp only [relocMove] at h
    cases hc : moveSlot em s with
    | error e => rw [hc] at h; simp at h
    | ok p =>
      obtain ⟨t, r⟩ := p
      rw [hc] at h
      cases hr : relocMove em ss with
      | mk res tr1 =>
        cases res with
        | ok p1 =>
          obtain ⟨ts1, rs1⟩ := p1
          rw [hr] at h
          simp only [Prod.mk.injEq] at h
          obtain ⟨h1, h2⟩ := h
          cases h1
          subst h2
          have := ih ts1 rs1 tr1 hr
          simp [this.1, this.2, List.replicate_succ]
        | error e1 =>
          rw [hr] at h
          simp at h

theorem moveSlot_isOk (em : ElemModel α ε)
    (hm : ∀ a, exOk (em.move a) = true) (s : Slot α) :
    ∃ t r, moveSlot em s = Except.ok (t, r) := by
  cases s with
  | none => exact ⟨none, none, rfl⟩
  | some a =>
    have h := hm a
    cases hma : em.move a with
    | error e => rw [hma] at h; simp [exOk] at h
    | ok p => exact ⟨some p.1, some p.2, by simp [moveSlot, hma]⟩

theorem relocMove_total (em : ElemModel α ε)
    (hm : ∀ a, exOk (em.move a) = true) :
    ∀ l : List (Slot α), ∃ ts rs,
      relocMove em l = (Except.ok (ts, rs),
        List.replicate l.length ElemOp.moveCtor) := by
  intro l
  induction l with
  | nil => exact ⟨[], [], rfl⟩
  | cons s ss ih =>
    obtain ⟨t, r, hs⟩ := moveSlot_isOk em hm s
    obtain ⟨ts, rs, hr⟩ := ih
    exact ⟨t :: ts, r :: rs, by simp [relocMove, hs, hr, List.replicate_succ]⟩

theorem relocMove_id (em : ElemModel α ε)
    (hm : ∀ a, ∃ r, em.move a = Except.ok (a, r)) :
    ∀ l : List (Slot α), ∃ rs,
      relocMove em l = (Except.ok (l, rs),
        List.replicate l.length ElemOp.moveCtor) := by
  intro l
  induction l with
  | nil => exact ⟨[], rfl⟩
  | cons s ss ih =>
    obtain ⟨rs, hr⟩ := ih
    cases s with
    | none =>
      exact ⟨none :: rs, by simp [relocMove, moveSlot, hr, List.replicate_succ]⟩
    | some a =>
      obtain ⟨r, ha⟩ := hm a
      exact ⟨some r :: rs,
        by simp [relocMove, moveSlot, ha, hr, List.replicate_succ]⟩

theorem relocCopy_id (em : ElemModel α ε)
    (hc : ∀ a, em.copy a = Except.ok a) :
    ∀ l : List (Slot α),
      relocCopy em l = (Except.ok l,
        List.replicate l.length ElemOp.copyCtor) := by
  intro l
  induction l with
  | nil => rfl
  | cons s ss ih =>
    cases s with
    | none => simp [relocCopy, copySlot, ih, List.replicate_succ]
    | some a => simp [relocCopy, copySlot, hc a, ih, List.replicate_succ]

theorem moveSlot_id (em : ElemModel α ε)
    (hm : ∀ a, ∃ r, em.move a = Except.ok (a, r)) (s : Slot α) :
    ∃ r, moveSlot em s = Except.ok (s, r) := by
  cases s with
  | none => exact ⟨none, rfl⟩
  | some a =>
    obtain ⟨r, ha⟩ := hm a
    exact ⟨some r, by simp [moveSlot, ha]⟩

/-! ### Claim theorems -/

/-- C3: the recovery branch taken when the initial construction fails in the
non-growth `Emplace` path is defective, as the spec itself flags: evaluated on
a vector with one live element (`7`), capacity 2, at position 0, with the
scratch construction failing, it destroys the live element at slot 0 (the
resulting state has lost it) instead of only a partially constructed slot, and
its reconstruction formula reads slot `size_ + pos_t + 1 = 2`, which lies
beyond the live range `[0, 1)` — in general the branch always reads slot
`size + pos + 1`, which is never inside `[0, size)`. -/
theorem C3_emplace_recovery_out_of_range :
    Vec.emplace emOkNat (Except.error ()) 0 ⟨[some 7, none], 1⟩ =
        OpResult.fail () ⟨[none, none], 1⟩ [ElemOp.ctorNew, ElemOp.dtor 0]
      ∧ emplaceRecoverReads 1 0 = [2]
      ∧ (∀ s p : Nat, s + p + 1 ∈ emplaceRecoverReads s p) := by
  refine ⟨by decide, by decide, ?_⟩
  intro s p
  simp [emplaceRecoverReads]

/-- C4: `Resize(n)` with `n > size` does not construct the new elements in the
trailing slots `[size, n)` when the pre-call capacity exceeds `n`: on a vector
with size 1 and capacity 4, `Resize(2)` constructs the single new element at
slot `Capacity() - count_new_elem = 3`, leaving slot 1 — which is inside the
new live range — unconstructed, contradicting the claim. -/
theorem C4_resize_constructs_wrong_slots :
    Vec.resize emOkNat (Except.ok 0) 2 ⟨[some 5, none, none, none], 1⟩ =
        OpResult.ok ⟨[some 5, none, none, some 0], 2⟩ [ElemOp.ctorNew]
      ∧ (⟨[some 5, none, none, some 0], 2⟩ : Vec Nat).buffer.getD 1 none = none
      ∧ (⟨[some 5, none, none, some 0], 2⟩ : Vec Nat).buffer.getD 3 none =
          some 0 := by
  decide

/-- C5 counterexample: move-assignment is implemented as a plain `Swap`, so
with a non-empty destination (`[1]`) and source (`[2, 3]`), the source is left
holding the destination's former state — size 1, not the empty (size 0) array
the claim requires. -/
theorem C5_cex_moveAssign_source_not_empty :
    (Vec.moveAssign (⟨[some 1], 1⟩ : Vec Nat) ⟨[some 2, some 3], 2⟩).1.2 =
        ⟨[some 1], 1⟩
      ∧ ((Vec.moveAssign (⟨[some 1], 1⟩ : Vec Nat)
            ⟨[some 2, some 3], 2⟩).1.2).size ≠ 0 := by
  decide

/-- C5 (amended): move-assignment exchanges block and size with the source
(the destination receives the source's former elements; the source receives
the destination's former state, hence is empty only if the destination was),
move-construction leaves the source empty, and both perform no element-level
construction, copy or destruction and cannot fail. -/
theorem C5_move_transfer (dst src : Vec α) :
    Vec.moveAssign dst src = ((src, dst), [])
      ∧ Vec.moveConstruct src = ((src, ⟨[], 0⟩), [])
      ∧ ((Vec.moveAssign dst src).1.2.size = 0 ↔ dst.size = 0)
      ∧ (Vec.moveConstruct src).1.2.size = 0 :=
  ⟨rfl, rfl, Iff.rfl, rfl⟩

/-- C6: when construction into slot `size` fails on a non-full vector, size
and state are indeed unchanged and the exception propagates — but the claim's
"no destructor is run on it" is violated: the catch handler calls
`Destroy(data_ + size_)`, running the element destructor on the
never-constructed slot 0 (the trace below contains `dtor 0`), which is
undefined behavior in the source. -/
theorem C6_nonfull_push_failure_runs_dtor :
    Vec.pushBack emOkNat (Except.error ()) ⟨[none], 0⟩ =
        OpResult.fail () ⟨[none], 0⟩ [ElemOp.ctorNew, ElemOp.dtor 0]
      ∧ Vec.emplaceBack emOkNat (Except.error ()) ⟨[none], 0⟩ =
        OpResult.fail () ⟨[none], 0⟩ [ElemOp.ctorNew, ElemOp.dtor 0]
      ∧ ElemOp.dtor 0 ∈ [ElemOp.ctorNew, ElemOp.dtor 0] := by
  decide

/-- C8: the size/liveness invariant is not preserved by every operation:
starting from a well-formed vector with size 1 and capacity 4, `Resize(2)`
yields a state with size 2 whose slot 1 is raw and whose slot 3 holds a live
object — violating both "slots `[0, size)` hold live elements" and "no live
element in `[size, capacity)`". -/
theorem C8_resize_breaks_invariant :
    (⟨[some 5, none, none, none], 1⟩ : Vec Nat).WF
      ∧ Vec.resize emOkNat (Except.ok 0) 2 ⟨[some 5, none, none, none], 1⟩ =
          OpResult.ok ⟨[some 5, none, none, some 0], 2⟩ [ElemOp.ctorNew]
      ∧ ¬ (⟨[some 5, none, none, some 0], 2⟩ : Vec Nat).WF := by
  decide

/-- C10: self-copy-assignment is a no-op: the `this != &rhs` guard makes the
operator return immediately, so the state is unchanged and the trace of
element-level constructions, assignments and destructions is empty. -/
theorem C10_self_copy_assign_noop (em : ElemModel α ε) (v : Vec α) :
    Vec.copyAssign em true v v = OpResult.ok v [] := rfl

/-- C2 counterexample: for a move-only element type whose move constructor can
fail (`emMoveOnlyThrowing`), the relocation policy must move, and a move
failing mid-relocation during a growth-triggering `PushBack` leaves an
already-moved-from element behind: the state after the failure differs from
the state before the call, so the claim's unconditional strong guarantee is
false. -/
theorem C2_cex_throwing_move_relocation :
    Vec.pushBack emMoveOnlyThrowing (Except.ok 5) ⟨[some 1, some 2], 2⟩ =
        OpResult.fail () ⟨[some 0, some 2], 2⟩
          [ElemOp.ctorNew, ElemOp.moveCtor, ElemOp.moveCtor]
      ∧ (⟨[some 0, some 2], 2⟩ : Vec Nat) ≠ ⟨[some 1, some 2], 2⟩ := by
  decide

/-- C9 counterexample: inserting at `end()` into a non-empty vector with spare
capacity and erasing the inserted position does not restore the sequence.
With a side-effect-free element whose moved-from residue is `0`
(`emMoveZero`), on `[5]` with capacity 2: `Insert(end(), 7)` move-constructs
the last element into the trailing slot, then overwrites that slot with the
new value, losing `5`; the subsequent `Erase` leaves `[0]`, not `[5]`. -/
theorem C9_cex_insert_at_end_nonfull :
    (afterInsertErase emMoveZero 7 1 ⟨[some 5, none], 1⟩).map Vec.liveSlots =
        some [some 0]
      ∧ (afterInsertErase emMoveZero 7 1 ⟨[some 5, none], 1⟩).map
          Vec.liveSlots ≠ some (Vec.liveSlots ⟨[some 5, none], 1⟩) := by
  decide

/-! ### Append / growth lemmas (C7) -/

theorem pushBack_emOkNat_ok (x : Nat) (v : Vec Nat) :
    ∃ w tr, Vec.pushBack emOkNat (Except.ok x) v = OpResult.ok w tr
      ∧ w.size = v.size + 1
      ∧ w.capacity = (if v.size = v.capacity
          then (if v.size = 0 then 1 else v.size * 2) else v.capacity) := by
  by_cases hfull : v.size = v.capacity
  · obtain ⟨rs, hrel⟩ := relocMove_id emOkNat (fun a => ⟨a, rfl⟩) v.liveSlots
    have hlive : v.liveSlots.length = v.size := by
      simp only [Vec.capacity] at hfull
      simp [Vec.liveSlots]
      omega
    have hb : relocByMove emOkNat = true := rfl
    refine ⟨⟨v.liveSlots ++ some x ::
        List.replicate ((if v.size = 0 then 1 else v.size * 2) - v.size - 1)
          none, v.size + 1⟩,
      ElemOp.ctorNew :: (List.replicate v.liveSlots.length ElemOp.moveCtor ++
        (List.range v.size).map ElemOp.dtor), ?_, rfl, ?_⟩
    · unfold Vec.pushBack
      rw [if_pos hfull, hb]
      simp only [eq_self_iff_true, if_true]
      rw [hrel]
    · have hfull' : v.size = List.length v.buffer := hfull
      simp only [Vec.capacity, List.length_append, List.length_cons,
        List.length_replicate, hlive]
      rw [if_pos hfull']
      by_cases h0 : v.size = 0
      · rw [if_pos h0]
        omega
      · rw [if_neg h0]
        omega
  · refine ⟨⟨v.buffer.set v.size (some x), v.size + 1⟩, [ElemOp.ctorNew],
      ?_, rfl, ?_⟩
    · unfold Vec.pushBack
      rw [if_neg hfull]
    · simp only [Vec.capacity, List.length_set]
      simp only [Vec.capacity] at hfull
      rw [if_neg hfull]

theorem appendN_succ (n : Nat) :
    (appendN (n + 1)).size = (appendN n).size + 1
      ∧ (appendN (n + 1)).capacity =
        (if (appendN n).size = (appendN n).capacity
         then (if (appendN n).size = 0 then 1 else (appendN n).size * 2)
         else (appendN n).capacity) := by
  obtain ⟨w, tr, hw, hsz, hcap⟩ := pushBack_emOkNat_ok n (appendN n)
  have hstep : appendN (n + 1) = w := by
    simp [appendN, hw]
  rw [hstep]
  exact ⟨hsz, hcap⟩

theorem appendN_inv : ∀ n : Nat, (appendN n).size = n
    ∧ (if n = 0 then (appendN n).capacity = 0
       else ∃ k, (appendN n).capacity = 2 ^ k ∧ n ≤ (appendN n).capacity) := by
  intro n
  induction n with
  | zero => exact ⟨rfl, by simp [appendN, Vec.capacity]⟩
  | succ m ih =>
    obtain ⟨ihs, ihc⟩ := ih
    obtain ⟨hsz, hcap⟩ := appendN_succ m
    refine ⟨by rw [hsz, ihs], ?_⟩
    simp only [Nat.succ_ne_zero, if_false]
    by_cases hm : m = 0
    · subst hm
      simp only [if_pos rfl] at ihc
      rw [hcap, ihs, ihc]
      exact ⟨0, by norm_num⟩
    · simp only [hm, if_false] at ihc
      obtain ⟨k, hk, hle⟩ := ihc
      by_cases heq : (appendN m).size = (appendN m).capacity
      · rw [hcap, if_pos heq, ihs, if_neg hm]
        refine ⟨k + 1, ?_, ?_⟩
        · rw [ihs] at heq
          rw [heq, hk, pow_succ]
        · rw [ihs] at heq
          have hm2 : m = 2 ^ k := by rw [heq, hk]
          omega
      · rw [hcap, if_neg heq]
        have hlt : m < (appendN m).capacity := by
          rcases Nat.lt_or_ge m (appendN m).capacity with h | h
          · exact h
          · exact absurd (by rw [ihs]; omega) heq
        exact ⟨k, hk, by omega⟩

/-- C7: appending `n` elements to an empty vector yields size `n`; each
append leaves the capacity unchanged unless the vector was full, in which
case the new capacity is `old == 0 ? 1 : old * 2`; capacity is monotonically
non-decreasing; and every capacity reached after at least one append is a
power of two (the sequence 1, 2, 4, 8, ...). -/
theorem C7_append_doubling (n : Nat) :
    (appendN n).size = n
      ∧ (appendN (n + 1)).capacity =
          (if (appendN n).size = (appendN n).capacity
           then (if (appendN n).capacity = 0 then 1
                 else (appendN n).capacity * 2)
           else (appendN n).capacity)
      ∧ (appendN n).capacity ≤ (appendN (n + 1)).capacity
      ∧ ∃ k, (appendN (n + 1)).capacity = 2 ^ k := by
  obtain ⟨hsz, _⟩ := appendN_inv n
  obtain ⟨hsz1, hcap1⟩ := appendN_succ n
  refine ⟨hsz, ?_, ?_, ?_⟩
  · rw [hcap1]
    by_cases heq : (appendN n).size = (appendN n).capacity
    · rw [if_pos heq, if_pos heq, heq]
    · rw [if_neg heq, if_neg heq]
  · rw [hcap1]
    by_cases heq : (appendN n).size = (appendN n).capacity
    · rw [if_pos heq, ← heq]
      by_cases h0 : (appendN n).size = 0
      · rw [if_pos h0, h0]
        omega
      · rw [if_neg h0]
        omega
    · rw [if_neg heq]
  · obtain ⟨_, hinv1⟩ := appendN_inv (n + 1)
    simp only [Nat.succ_ne_zero, if_false] at hinv1
    obtain ⟨k, hk, _⟩ := hinv1
    exact ⟨k, hk⟩

/-! ### Relocation-policy trace lemmas (C1) -/

theorem relocEvents_cons_ctorNew (tr : List ElemOp) :
    relocEvents (ElemOp.ctorNew :: tr) = relocEvents tr := by
  simp [relocEvents, isRelocEvent]

theorem relocEvents_append (l1 l2 : List ElemOp) :
    relocEvents (l1 ++ l2) = relocEvents l1 ++ relocEvents l2 :=
  List.filter_append l1 l2

theorem relocEvents_replicate_move (n : Nat) :
    relocEvents (List.replicate n ElemOp.moveCtor) =
      List.replicate n ElemOp.moveCtor := by
  induction n with
  | zero => rfl
  | succ m ih => simp [List.replicate_succ, relocEvents, isRelocEvent] at ih ⊢

theorem relocEvents_replicate_copy (n : Nat) :
    relocEvents (List.replicate n ElemOp.copyCtor) =
      List.replicate n ElemOp.copyCtor := by
  induction n with
  | zero => rfl
  | succ m ih => simp [List.replicate_succ, relocEvents, isRelocEvent] at ih ⊢

theorem relocEvents_dtor_map (n : Nat) :
    relocEvents ((List.range n).map ElemOp.dtor) = [] := by
  rw [relocEvents, List.filter_eq_nil_iff]
  intro a ha
  obtain ⟨i, _, hi⟩ := List.mem_map.mp ha
  rw [← hi]
  simp [isRelocEvent]

theorem liveSlots_length_of_full (v : Vec α) (hfull : v.size = v.capacity) :
    v.liveSlots.length = v.size := by
  simp only [Vec.capacity] at hfull
  simp [Vec.liveSlots]
  omega

theorem reserve_traceIs (em : ElemModel α ε) (newCap : Nat) (v : Vec α)
    (hfull : v.size = v.capacity) (hgrow : v.capacity < newCap) :
    relocTraceIs (if em.nothrowMove || !em.copyConstructible then
        ElemOp.moveCtor else ElemOp.copyCtor) v.size
      (Vec.reserve em newCap v) := by
  have hlive := liveSlots_length_of_full v hfull
  have hrb : relocByMove em = (em.nothrowMove || !em.copyConstructible) := rfl
  unfold Vec.reserve
  rw [if_neg (not_le.mpr hgrow), ← hrb]
  cases hb : relocByMove em with
  | true =>
    simp only [eq_self_iff_true, if_true]
    rcases hr : relocMove em v.liveSlots with ⟨res, tr⟩
    cases res with
    | ok p =>
      obtain ⟨ts, rs⟩ := p
      obtain ⟨_, htr⟩ := relocMove_ok em v.liveSlots ts rs tr hr
      simp only [relocTraceIs, htr, hlive, relocEvents_append,
        relocEvents_replicate_move, relocEvents_dtor_map, List.append_nil]
    | error e =>
      obtain ⟨e1, rs⟩ := e
      simp [relocTraceIs]
  | false =>
    simp only [Bool.false_eq_true, if_false]
    rcases hr : relocCopy em v.liveSlots with ⟨res, tr⟩
    cases res with
    | ok ts =>
      obtain ⟨_, htr⟩ := relocCopy_ok em v.liveSlots ts tr hr
      simp only [relocTraceIs, htr, hlive, relocEvents_append,
        relocEvents_replicate_copy, relocEvents_dtor_map, List.append_nil]
    | error e =>
      simp [relocTraceIs]

theorem pushBack_traceIs (em : ElemModel α ε) (mk : Except ε α) (v : Vec α)
    (hfull : v.size = v.capacity) :
    relocTraceIs (if em.nothrowMove || !em.copyConstructible then
        ElemOp.moveCtor else ElemOp.copyCtor) v.size
      (Vec.pushBack em mk v) := by
  have hlive := liveSlots_length_of_full v hfull
  have hrb : relocByMove em = (em.nothrowMove || !em.copyConstructible) := rfl
  unfold Vec.pushBack
  rw [if_pos hfull, ← hrb]
  cases mk with
  | error e => simp [relocTraceIs]
  | ok x =>
    cases hb : relocByMove em with
    | true =>
      simp only [eq_self_iff_true, if_true]
      rcases hr : relocMove em v.liveSlots with ⟨res, tr⟩
      cases res with
      | ok p =>
        obtain ⟨ts, rs⟩ := p
        obtain ⟨_, htr⟩ := relocMove_ok em v.liveSlots ts rs tr hr
        simp only [relocTraceIs, htr, hlive, relocEvents_cons_ctorNew,
          relocEvents_append, relocEvents_replicate_move,
          relocEvents_dtor_map, List.append_nil]
      | error e =>
        obtain ⟨e1, rs⟩ := e
        simp [relocTraceIs]
    | false =>
      simp only [Bool.false_eq_true, if_false]
      rcases hr : relocCopy em v.liveSlots with ⟨res, tr⟩
      cases res with
      | ok ts =>
        obtain ⟨_, htr⟩ := relocCopy_ok em v.liveSlots ts tr hr
        simp only [relocTraceIs, htr, hlive, relocEvents_cons_ctorNew,
          relocEvents_append, relocEvents_replicate_copy,
          relocEvents_dtor_map, List.append_nil]
      | error e =>
        simp [relocTraceIs]

theorem emplace_traceIs (em : ElemModel α ε) (mk : Except ε α) (pos : Nat)
    (v : Vec α) (hfull : v.size = v.capacity) (hpos : pos ≤ v.size) :
    relocTraceIs (if em.nothrowMove || !em.copyConstructible then
        ElemOp.moveCtor else ElemOp.copyCtor) v.size
      (Vec.emplace em mk pos v) := by
  have hlive := liveSlots_length_of_full v hfull
  have hrb : relocByMove em = (em.nothrowMove || !em.copyConstructible) := rfl
  have hlen : v.size ≤ v.buffer.length := le_of_eq hfull
  have hpre : (v.buffer.take pos).length = pos := by
    simp
    omega
  have hsuf : (v.liveSlots.drop pos).length = v.size - pos := by
    simp [hlive]
  unfold Vec.emplace
  rw [if_pos hfull, ← hrb]
  cases mk with
  | error e => simp [relocTraceIs]
  | ok x =>
    cases hb : relocByMove em with
    | true =>
      simp only [eq_self_iff_true, if_true]
      rcases hr1 : relocMove em (v.buffer.take pos) with ⟨res1, tr1⟩
      cases res1 with
      | error e =>
        obtain ⟨e1, rs⟩ := e
        simp [relocTraceIs]
      | ok p1 =>
        obtain ⟨ts1, rs1⟩ := p1
        obtain ⟨_, htr1⟩ := relocMove_ok em _ ts1 rs1 tr1 hr1
        rcases hr2 : relocMove em (v.liveSlots.drop pos) with ⟨res2, tr2⟩
        cases res2 with
        | error e =>
          obtain ⟨e1, rs⟩ := e
          simp [relocTraceIs]
        | ok p2 =>
          obtain ⟨ts2, rs2⟩ := p2
          obtain ⟨_, htr2⟩ := relocMove_ok em _ ts2 rs2 tr2 hr2
          simp only [relocTraceIs, htr1, htr2, hpre, hsuf,
            relocEvents_cons_ctorNew, relocEvents_append,
            relocEvents_replicate_move, relocEvents_dtor_map,
            List.append_nil]
          rw [← List.replicate_add]
          congr 1
          omega
    | false =>
      simp only [Bool.false_eq_true, if_false]
      rcases hr1 : relocCopy em (v.buffer.take pos) with ⟨res1, tr1⟩
      cases res1 with
      | error e => simp [relocTraceIs]
      | ok ts1 =>
        obtain ⟨_, htr1⟩ := relocCopy_ok em _ ts1 tr1 hr1
        rcases hr2 : relocCopy em (v.liveSlots.drop pos) with ⟨res2, tr2⟩
        cases res2 with
        | error e => simp [relocTraceIs]
        | ok ts2 =>
          obtain ⟨_, htr2⟩ := relocCopy_ok em _ ts2 tr2 hr2
          simp only [relocTraceIs, htr1, htr2, hpre, hsuf,
            relocEvents_cons_ctorNew, relocEvents_append,
            relocEvents_replicate_copy, relocEvents_dtor_map,
            List.append_nil]
          rw [← List.replicate_add]
          congr 1
          omega

/-- C1: on every growth-triggering relocation — `Reserve` past the current
capacity, and `PushBack` / `EmplaceBack` / `Emplace` on a full vector — the
(successful) operation's trace of element transfers consists of exactly
`size` move-constructions when the element's move constructor cannot fail or
the type has no copy constructor (`em.nothrowMove || !em.copyConstructible`),
and exactly `size` copy-constructions otherwise. -/
theorem C1_relocation_policy (em : ElemModel α ε) (mk : Except ε α)
    (v : Vec α) (newCap pos : Nat) (hfull : v.size = v.capacity)
    (hgrow : v.capacity < newCap) (hpos : pos ≤ v.size) :
    relocTraceIs (if em.nothrowMove || !em.copyConstructible then
        ElemOp.moveCtor else ElemOp.copyCtor) v.size
        (Vec.reserve em newCap v)
      ∧ relocTraceIs (if em.nothrowMove || !em.copyConstructible then
          ElemOp.moveCtor else ElemOp.copyCtor) v.size
          (Vec.pushBack em mk v)
      ∧ relocTraceIs (if em.nothrowMove || !em.copyConstructible then
          ElemOp.moveCtor else ElemOp.copyCtor) v.size
          (Vec.emplaceBack em mk v)
      ∧ relocTraceIs (if em.nothrowMove || !em.copyConstructible then
          ElemOp.moveCtor else ElemOp.copyCtor) v.size
          (Vec.emplace em mk pos v) :=
  ⟨reserve_traceIs em newCap v hfull hgrow,
    pushBack_traceIs em mk v hfull,
    pushBack_traceIs em mk v hfull,
    emplace_traceIs em mk pos v hfull hpos⟩

/-- C1 witness: a copyable element type with a potentially-failing move
(`emCopyNat`) relocates by copy on all four growth-triggering operations, on
a concrete full vector of two elements. -/
theorem C1_relocation_policy_witness :
    relocTraceIs ElemOp.copyCtor 2
        (Vec.reserve emCopyNat 3 ⟨[some 1, some 2], 2⟩)
      ∧ relocTraceIs ElemOp.copyCtor 2
          (Vec.pushBack emCopyNat (Except.ok 7) ⟨[some 1, some 2], 2⟩)
      ∧ relocTraceIs ElemOp.copyCtor 2
          (Vec.emplaceBack emCopyNat (Except.ok 7) ⟨[some 1, some 2], 2⟩)
      ∧ relocTraceIs ElemOp.copyCtor 2
          (Vec.emplace emCopyNat (Except.ok 7) 1 ⟨[some 1, some 2], 2⟩) :=
  C1_relocation_policy emCopyNat (Except.ok 7) ⟨[some 1, some 2], 2⟩ 3 1
    (by decide) (by decide) (by decide)

/-- C2 (amended): for a growth-triggering append or insert (`size ==
capacity` at entry), if construction of the new element or relocation of an
existing element fails, the exception propagates and the vector's state —
size, capacity and all element values — is exactly the pre-call state,
provided any relocation performed by move cannot fail (which holds whenever
the move constructor is non-throwing, and vacuously when relocation is by
copy).  In particular the new element is constructed into the fresh block
before any existing element is relocated, so a failing construction never
touches the old block.  For a move-only type with a fallible move
constructor the proviso fails and so does the guarantee (see the
counterexample). -/
theorem C2_strong_guarantee (em : ElemModel α ε) (mk : Except ε α) (v : Vec α)
    (pos : Nat) (hfull : v.size = v.capacity)
    (hm : relocByMove em = true → ∀ a, exOk (em.move a) = true) :
    strongGuarantee v (Vec.pushBack em mk v)
      ∧ strongGuarantee v (Vec.emplace em mk pos v) := by
  constructor
  · unfold Vec.pushBack
    rw [if_pos hfull]
    cases mk with
    | error e => simp [strongGuarantee]
    | ok x =>
      cases hb : relocByMove em with
      | true =>
        simp only [eq_self_iff_true, if_true]
        obtain ⟨ts, rs, hr⟩ := relocMove_total em (hm hb) v.liveSlots
        rw [hr]
        simp [strongGuarantee]
      | false =>
        simp only [Bool.false_eq_true, if_false]
        rcases hr : relocCopy em v.liveSlots with ⟨res, tr⟩
        cases res with
        | ok ts => simp [strongGuarantee]
        | error e => simp [strongGuarantee]
  · unfold Vec.emplace
    rw [if_pos hfull]
    cases mk with
    | error e => simp [strongGuarantee]
    | ok x =>
      cases hb : relocByMove em with
      | true =>
        simp only [eq_self_iff_true, if_true]
        obtain ⟨ts1, rs1, hr1⟩ :=
          relocMove_total em (hm hb) (v.buffer.take pos)
        obtain ⟨ts2, rs2, hr2⟩ :=
          relocMove_total em (hm hb) (v.liveSlots.drop pos)
        rw [hr1, hr2]
        simp [strongGuarantee]
      | false =>
        simp only [Bool.false_eq_true, if_false]
        rcases hr1 : relocCopy em (v.buffer.take pos) with ⟨res1, tr1⟩
        cases res1 with
        | error e => simp [strongGuarantee]
        | ok ts1 =>
          rcases hr2 : relocCopy em (v.liveSlots.drop pos) with ⟨res2, tr2⟩
          cases res2 with
          | error e => simp [strongGuarantee]
          | ok ts2 => simp [strongGuarantee]

/-- C2 witness: on a full one-element vector with a nothrow-movable element
type, a failing construction of the new element during `PushBack` and during
`Emplace` leaves the vector exactly as it was. -/
theorem C2_strong_guarantee_witness :
    strongGuarantee (⟨[some 1], 1⟩ : Vec Nat)
        (Vec.pushBack emOkNat (Except.error ()) ⟨[some 1], 1⟩)
      ∧ strongGuarantee (⟨[some 1], 1⟩ : Vec Nat)
          (Vec.emplace emOkNat (Except.error ()) 0 ⟨[some 1], 1⟩) :=
  C2_strong_guarantee emOkNat (Except.error ()) ⟨[some 1], 1⟩ 0 (by decide)
    (fun _ a => rfl)

/-! ### Insert / erase roundtrip lemmas (C9) -/

theorem erase_insert_shape (P S rest : Buf α) (x : α) (pos s : Nat)
    (hP : P.length = pos) (hS : S.length = s - pos) (hpos : pos ≤ s) :
    (Vec.erase pos ⟨P ++ some x :: (S ++ rest), s + 1⟩).1.size = s
      ∧ (Vec.erase pos ⟨P ++ some x :: (S ++ rest), s + 1⟩).1.liveSlots =
        P ++ S := by
  have hlen : (P ++ some x :: (S ++ rest)).length = s + 1 + rest.length := by
    simp [hP, hS]
    omega
  refine ⟨rfl, ?_⟩
  show ((moveShiftLeft (P ++ some x :: (S ++ rest)) pos (s + 1)).set
      (s + 1 - 1) none).take (s + 1 - 1) = P ++ S
  have hs1 : s + 1 - 1 = s := rfl
  rw [hs1]
  apply buf_ext
  · simp [length_moveShiftLeft, hlen, hP, hS]
    omega
  · intro i hi
    simp only [List.length_take, List.length_set, length_moveShiftLeft,
      hlen] at hi
    have his : i < s := by omega
    have hib : i < (P ++ some x :: (S ++ rest)).length := by omega
    rw [getD_take_lt _ his, getD_set_ne _ _ (by omega),
      getD_moveShiftLeft _ _ _ _ (by rw [hlen]; omega)]
    by_cases hip : pos ≤ i
    · rw [if_pos ⟨hip, by omega⟩, getD_append_ge _ _ (by omega),
        getD_append_ge _ _ (by omega)]
      have h1 : i + 1 - P.length = (i - pos) + 1 := by omega
      rw [h1, getD_cons_succ, getD_append_lt _ _ (by omega), hP]
    · rw [if_neg (by omega), getD_append_lt _ _ (by omega),
        getD_append_lt _ _ (by omega)]

theorem nonfull_shape (buf : Buf α) (r : Slot α) (x : α) (pos s : Nat)
    (hs : s < buf.length) (h0 : s ≠ 0) (hpos : pos < s) :
    (moveShiftRight ((buf.set s (buf.getD (s - 1) none)).set (s - 1) r)
        pos s).set pos (some x) =
      buf.take pos ++ some x :: ((buf.take s).drop pos ++ buf.drop (s + 1)) := by
  have hP : (buf.take pos).length = pos := by simp; omega
  have hS : ((buf.take s).drop pos).length = s - pos := by simp; omega
  apply buf_ext
  · simp [length_moveShiftRight]
    omega
  · intro i hi
    simp only [List.length_set, length_moveShiftRight] at hi
    by_cases hip : i = pos
    · subst hip
      rw [getD_set_self _ _ (by simp [length_moveShiftRight]; omega),
        getD_append_ge _ _ (by omega)]
      rw [hP, Nat.sub_self]
      rfl
    · rw [getD_set_ne _ _ (Ne.symm hip),
        getD_moveShiftRight _ _ _ _ (by simp; omega)]
      by_cases hcond : pos + 1 ≤ i ∧ i < s
      · rw [if_pos hcond, getD_set_ne _ _ (by omega),
          getD_set_ne _ _ (by omega), getD_append_ge _ _ (by omega)]
        have h1 : i - (buf.take pos).length = (i - pos - 1) + 1 := by omega
        rw [h1, getD_cons_succ, getD_append_lt _ _ (by omega), getD_drop,
          getD_take_lt _ (by omega)]
        congr 1
        omega
      · by_cases hlo : i < pos
        · rw [if_neg hcond, getD_set_ne _ _ (by omega),
            getD_set_ne _ _ (by omega), getD_append_lt _ _ (by omega),
            getD_take_lt _ (by omega)]
        · have hge : s ≤ i := by omega
          by_cases hieq : i = s
          · subst hieq
            rw [if_neg hcond, getD_set_ne _ _ (by omega),
              getD_set_self _ _ (by omega), getD_append_ge _ _ (by omega)]
            have h1 : i - (buf.take pos).length = (i - pos - 1) + 1 := by
              omega
            rw [h1, getD_cons_succ, getD_append_lt _ _ (by omega), getD_drop,
              getD_take_lt _ (by omega)]
            congr 1
            omega
          · rw [if_neg hcond, getD_set_ne _ _ (by omega),
              getD_set_ne _ _ (by omega), getD_append_ge _ _ (by omega)]
            have h1 : i - (buf.take pos).length = (i - pos - 1) + 1 := by
              omega
            rw [h1, getD_cons_succ, getD_append_ge _ _ (by omega), getD_drop]
            congr 1
            simp only [hS]
            omega

theorem emplace_ok_growth (em : ElemModel α ε) (x : α) (pos : Nat) (v : Vec α)
    (hfull : v.size = v.capacity)
    (hcopy : ∀ a, em.copy a = Except.ok a)
    (hmove : ∀ a, ∃ r, em.move a = Except.ok (a, r)) :
    ∃ tr, Vec.emplace em (Except.ok x) pos v =
      OpResult.ok ⟨v.buffer.take pos ++ (some x :: v.liveSlots.drop pos) ++
          List.replicate ((if v.size = 0 then 1 else v.size * 2) - v.size - 1)
            none, v.size + 1⟩ tr := by
  unfold Vec.emplace
  rw [if_pos hfull]
  cases hb : relocByMove em with
  | true =>
    obtain ⟨rs1, hr1⟩ := relocMove_id em hmove (v.buffer.take pos)
    obtain ⟨rs2, hr2⟩ := relocMove_id em hmove (v.liveSlots.drop pos)
    simp only [eq_self_iff_true, if_true, hr1, hr2]
    exact ⟨_, rfl⟩
  | false =>
    simp only [Bool.false_eq_true, if_false,
      relocCopy_id em hcopy (v.buffer.take pos),
      relocCopy_id em hcopy (v.liveSlots.drop pos)]
    exact ⟨_, rfl⟩

theorem emplace_ok_nonfull (em : ElemModel α ε) (x : α) (pos : Nat)
    (v : Vec α) (hnf : ¬ v.size = v.capacity)
    (hsz : v.size ≤ v.buffer.length) (hpos : pos < v.size)
    (hmove : ∀ a, ∃ r, em.move a = Except.ok (a, r)) :
    ∃ tr, Vec.emplace em (Except.ok x) pos v =
      OpResult.ok ⟨v.buffer.take pos ++ some x :: ((v.buffer.take v.size).drop
          pos ++ v.buffer.drop (v.size + 1)), v.size + 1⟩ tr := by
  have hlt : v.size < v.buffer.length := by
    have hc : v.capacity = v.buffer.length := rfl
    omega
  have h0 : ¬ v.size = 0 := by omega
  have h0' : v.size ≠ 0 := by omega
  obtain ⟨r, hms⟩ := moveSlot_id em hmove (v.buffer.getD (v.size - 1) none)
  have hshape := nonfull_shape v.buffer r x pos v.size hlt h0' hpos
  refine ⟨ElemOp.ctorNew :: ElemOp.moveCtor ::
    (((List.range (v.size - 1 - pos)).map fun _ => ElemOp.assign) ++
      [ElemOp.assign]), ?_⟩
  unfold Vec.emplace
  simp only [if_neg hnf, if_neg h0, hms, hshape]

/-- Writing into slot 0 of a non-empty buffer is consing onto its tail. -/
theorem set_zero_cons (buf : Buf α) (x : Slot α) (h : 0 < buf.length) :
    buf.set 0 x = x :: buf.drop 1 := by
  cases buf with
  | nil => simp at h
  | cons b bs => simp

theorem emplace_ok_empty (em : ElemModel α ε) (x : α) (v : Vec α)
    (hnf : ¬ v.size = v.capacity) (h0 : v.size = 0) :
    Vec.emplace em (Except.ok x) 0 v =
      OpResult.ok ⟨v.buffer.set 0 (some x), v.size + 1⟩ [ElemOp.ctorNew] := by
  unfold Vec.emplace
  rw [if_neg hnf, if_pos h0]

/-- C9 (amended): `Insert(pos, x)` immediately followed by `Erase(pos)`
restores the original element sequence (size and live slots) for
side-effect-free element types — at every valid position when the insertion
triggers growth (`size == capacity`) or the vector is empty, and at every
position `pos < size` otherwise.  (Inserting at `end()` into a non-empty
vector with spare capacity instead loses the last element's value — see the
counterexample.) -/
theorem C9_insert_erase (em : ElemModel α ε) (x : α) (pos : Nat) (v : Vec α)
    (hWF : v.WF) (hcopy : ∀ a, em.copy a = Except.ok a)
    (hmove : ∀ a, ∃ r, em.move a = Except.ok (a, r)) (hpos : pos ≤ v.size)
    (hcase : pos < v.size ∨ v.size = v.capacity ∨ v.size = 0) :
    (afterInsertErase em x pos v).map Vec.size = some v.size
      ∧ (afterInsertErase em x pos v).map Vec.liveSlots = some v.liveSlots := by
  have hszle : v.size ≤ v.buffer.length := hWF.1
  have hPS : v.buffer.take pos ++ (v.buffer.take v.size).drop pos =
      v.liveSlots := by
    have h1 : v.buffer.take pos = (v.buffer.take v.size).take pos := by
      rw [List.take_take, Nat.min_eq_left hpos]
    rw [h1, List.take_append_drop]
    rfl
  by_cases hfull : v.size = v.capacity
  · have hfl : v.size = v.buffer.length := hfull
    obtain ⟨tr, hemp⟩ := emplace_ok_growth em x pos v hfull hcopy hmove
    rw [List.append_assoc, List.cons_append] at hemp
    have hP : (v.buffer.take pos).length = pos := by simp; omega
    have hS : (v.liveSlots.drop pos).length = v.size - pos := by
      simp [Vec.liveSlots]
      omega
    obtain ⟨hes, hel⟩ := erase_insert_shape (v.buffer.take pos)
      (v.liveSlots.drop pos)
      (List.replicate ((if v.size = 0 then 1 else v.size * 2) - v.size - 1)
        none) x pos v.size hP hS hpos
    simp only [afterInsertErase, hemp, Option.map_some']
    exact ⟨congrArg some hes, congrArg some (hel.trans hPS)⟩
  · rcases hcase with hlt | hfull' | h0
    · -- non-growth, pos < size (hence size ≠ 0)
      obtain ⟨tr, hemp⟩ := emplace_ok_nonfull em x pos v hfull hszle hlt hmove
      have hltb : v.size < v.buffer.length := by
        have hc : v.capacity = v.buffer.length := rfl
        omega
      have hP : (v.buffer.take pos).length = pos := by simp; omega
      have hS : ((v.buffer.take v.size).drop pos).length = v.size - pos := by
        simp
        omega
      obtain ⟨hes, hel⟩ := erase_insert_shape (v.buffer.take pos)
        ((v.buffer.take v.size).drop pos) (v.buffer.drop (v.size + 1)) x pos
        v.size hP hS hpos
      simp only [afterInsertErase, hemp, Option.map_some']
      exact ⟨congrArg some hes, congrArg some (hel.trans hPS)⟩
    · exact absurd hfull' hfull
    · -- non-growth, empty
      have hpos0 : pos = 0 := by omega
      subst hpos0
      have hemp := emplace_ok_empty em x v hfull h0
      simp only [afterInsertErase, hemp, Option.map_some']
      constructor
      · rfl
      · rw [h0]
        simp [Vec.erase, Vec.liveSlots, h0]

/-- C9 witness: on a well-formed two-element vector with spare capacity,
inserting `9` at position 1 and erasing position 1 restores size 2 and the
original elements `[1, 2]`. -/
theorem C9_insert_erase_witness :
    (afterInsertErase emOkNat 9 1 ⟨[some 1, some 2, none], 2⟩).map Vec.size =
        some 2
      ∧ (afterInsertErase emOkNat 9 1 ⟨[some 1, some 2, none], 2⟩).map
          Vec.liveSlots = some [some 1, some 2] :=
  C9_insert_erase emOkNat 9 1 ⟨[some 1, some 2, none], 2⟩ (by decide)
    (fun a => rfl) (fun a => ⟨a, rfl⟩) (by decide) (Or.inl (by decide))

end AdvVector
